import Mathlib

/-!
Shallow embedding of the Wiskoro backend (`src/main.py`), a small FastAPI
math chatbot.  Python strings are modelled as `List Char` (one element per
Unicode code point, matching Python's `len`/indexing semantics), timestamps
as `Int` (sub-second float fractions are irrelevant to every property
considered here), and the decimal numerals extracted by
`verify_numerical_answer` as exact scaled decimals (`Dec`): Python compares
binary floats, but every comparison performed by the code (`abs n > 1000000`,
`max_answer > max_question * 1000`) is modelled exactly on the decimal
values.  The external Mistral completion call is modelled by an oracle value
(`SvcResult`) describing how the HTTP interaction resolves; the rate limiter
and cache dictionaries are association lists with Python-dict lookup
semantics.
-/

namespace Wiskoro

/-- Python `str` modelled as a list of Unicode characters. -/
abbrev Str := List Char

/-- Whitespace characters recognised by Python's `str.split()` / `str.strip()`
(the ASCII subset; the source never manipulates exotic Unicode spaces). -/
def isSpaceChar (c : Char) : Bool :=
  c == ' ' || c == '\t' || c == '\n' || c == '\r' || c == '\x0b' || c == '\x0c'

/-- Python `s.lower()`; the keyword tables are ASCII so ASCII lowering suffices. -/
def lowerStr (s : Str) : Str := s.map Char.toLower

/-- Membership of a single character in a string (`c in s` in Python). -/
def chrIn (c : Char) (s : Str) : Bool := s.any (fun a => a == c)

/-- Whether `pat` is a (case-sensitive) prefix of `s`. -/
def patPrefixAt : Str → Str → Bool
  | [], _ => true
  | _ :: _, [] => false
  | p :: ps, c :: cs => p == c && patPrefixAt ps cs

/-- Python substring test `pat in s`. -/
def strIn (pat : Str) : Str → Bool
  | [] => pat.isEmpty
  | c :: rest => patPrefixAt pat (c :: rest) || strIn pat rest

/-- Words of a string: maximal runs of non-whitespace (Python `s.split()`). -/
def wordsOf (s : Str) : List Str :=
  (s.foldr
    (fun c acc =>
      if isSpaceChar c then [] :: acc
      else
        match acc with
        | [] => [[c]]
        | w :: ws => (c :: w) :: ws)
    []).filter (fun w => !w.isEmpty)

/-- Python `' '.join(s.split())`: collapse every whitespace run to one space. -/
def collapseWs (s : Str) : Str := List.intercalate [' '] (wordsOf s)

/-- Python `s.strip()`: drop leading and trailing whitespace. -/
def stripStr (s : Str) : Str :=
  ((s.dropWhile isSpaceChar).reverse.dropWhile isSpaceChar).reverse

/-- MATH_CONTEXTS from `src/main.py`: topic name to trigger keywords, in
declaration order. -/
def MATH_CONTEXTS : List (Str × List Str) :=
  [ ("basis".toList,
      ["optellen".toList, "aftrekken".toList, "plus".toList, "min".toList,
       "+".toList, "-".toList]),
    ("vermenigvuldigen".toList,
      ["keer".toList, "maal".toList, "*".toList, "×".toList,
       "vermenigvuldig".toList]),
    ("delen".toList,
      ["delen".toList, "gedeeld".toList, "/".toList, "÷".toList]),
    ("breuken".toList,
      ["breuk".toList, "noemer".toList, "teller".toList, "/".toList]),
    ("procenten".toList,
      ["procent".toList, "%".toList, "percentage".toList]),
    ("meetkunde".toList,
      ["oppervlakte".toList, "omtrek".toList, "volume".toList, "hoek".toList,
       "driehoek".toList, "vierkant".toList, "cirkel".toList]),
    ("vergelijkingen".toList,
      ["vergelijking".toList, "=".toList, "x".toList, "y".toList,
       "onbekende".toList]) ]

/-- The flattened keyword list `sum(MATH_CONTEXTS.values(), [])`. -/
def allMathKeywords : List Str :=
  (MATH_CONTEXTS.map Prod.snd).foldr (fun a b => a ++ b) []

/-- identify_math_context: first context (in declaration order) one of whose
keywords occurs in the lower-cased question, else `'algemeen'`. -/
def identify_math_context (question : Str) : Str :=
  match MATH_CONTEXTS.find? (fun c => c.2.any (fun kw => strIn kw (lowerStr question))) with
  | some c => c.1
  | none => "algemeen".toList

/-- validate_math_question: some configured keyword occurs in the lower-cased
question. -/
def validate_math_question (question : Str) : Bool :=
  allMathKeywords.any (fun kw => strIn kw (lowerStr question))

/-- Exact scaled decimal `num / 10 ^ exp`, the value of one numeral matched by
the regex `-?\d*\.?\d+` (Python converts to float; all comparisons the code
performs are modelled exactly on the decimal value). -/
structure Dec where
  num : Int
  exp : Nat
deriving DecidableEq

/-- Numeric value of a digit string. -/
def digitsToNat (ds : Str) : Nat := ds.foldl (fun n c => 10 * n + (c.toNat - 48)) 0

/-- Split off the maximal leading run of ASCII digits. -/
def digitRun : Str → Str × Str
  | [] => ([], [])
  | c :: rest =>
    if c.isDigit then
      let (d, r) := digitRun rest
      (c :: d, r)
    else ([], c :: rest)

/-- Build the decimal `ds.es` (integer part `ds`, fraction part `es`). -/
def decOfParts (ds es : Str) : Dec :=
  ⟨Int.ofNat (digitsToNat ds * 10 ^ es.length + digitsToNat es), es.length⟩

def decNeg (d : Dec) : Dec := ⟨-d.num, d.exp⟩

/-- Match the regex core `\d*\.?\d+` at the start of `s` (greedy with
backtracking, as Python's engine behaves): returns the value and the
remainder of the string after the match. -/
def matchCore (s : Str) : Option (Dec × Str) :=
  let (ds, r1) := digitRun s
  match r1 with
  | '.' :: r2 =>
    let (es, r3) := digitRun r2
    if es.isEmpty then
      -- no digit after the dot: backtrack, match the integer digits only
      if ds.isEmpty then none else some (decOfParts ds [], r1)
    else some (decOfParts ds es, r3)
  | _ => if ds.isEmpty then none else some (decOfParts ds [], r1)

/-- Match `-?\d*\.?\d+` at the start of `s`. -/
def matchNum : Str → Option (Dec × Str)
  | [] => none
  | c :: rest =>
    if c == '-' then
      match matchCore rest with
      | some (v, r) => some (decNeg v, r)
      | none => none
    else matchCore (c :: rest)

/-- Scan for all matches of `-?\d*\.?\d+` (Python `re.findall`), fuelled by the
string length; each successful match consumes at least one character, so fuel
equal to the length never runs out. -/
def extractNumsF : Nat → Str → List Dec
  | 0, _ => []
  | _ + 1, [] => []
  | fuel + 1, c :: rest =>
    match matchNum (c :: rest) with
    | some (v, r) => v :: extractNumsF fuel r
    | none => extractNumsF fuel rest

/-- All decimal numerals occurring in `s`, in order. -/
def extractNums (s : Str) : List Dec := extractNumsF s.length s

/-- Strict comparison of two scaled decimals (cross-multiplied). -/
def decLt (a b : Dec) : Bool :=
  decide (a.num * (10 : Int) ^ b.exp < b.num * (10 : Int) ^ a.exp)

def decMax (a b : Dec) : Dec := if decLt a b then b else a

def decAbs (a : Dec) : Dec := ⟨(a.num.natAbs : Int), a.exp⟩

/-- Maximum of the absolute values of a list of decimals (`max(abs(n) ...)`;
the `0` seed is neutral because absolute values are nonnegative and the code
only evaluates this on nonempty lists). -/
def maxAbsDec (l : List Dec) : Dec := l.foldl (fun m d => decMax m (decAbs d)) ⟨0, 0⟩

def decMul (a b : Dec) : Dec := ⟨a.num * b.num, a.exp + b.exp⟩

/-- verify_numerical_answer from `src/main.py` (the `except` fallback is dead:
no step of the modelled pipeline can raise). -/
def verify_numerical_answer (question answer : Str) : Bool :=
  let question_nums := extractNums question
  let answer_nums := extractNums answer
  if answer_nums.isEmpty then true
  else if answer_nums.any (fun n => decLt ⟨1000000, 0⟩ (decAbs n)) then false
  else if question_nums.isEmpty then true
  else if decLt (decMul (maxAbsDec question_nums) ⟨1000, 0⟩) (maxAbsDec answer_nums) then false
  else true

/-- Phrases that mark an answer as generic (validate_answer). -/
def generic_responses : List Str :=
  ["ik begrijp je vraag".toList, "dat is een goede vraag".toList,
   "laat me je helpen".toList]

/-- validate_answer from `src/main.py`. -/
def validate_answer (question answer context : Str) : Bool :=
  if question.any Char.isDigit && !(answer.any Char.isDigit) then false
  else if generic_responses.any (fun r => strIn r (lowerStr answer)) then false
  else if context == "meetkunde".toList && !(strIn "formule".toList (lowerStr answer)) then false
  else verify_numerical_answer question answer

/-- Case-insensitive prefix match: the pattern is stored lower-case and each
input character is lowered before comparison (`re.IGNORECASE`). -/
def ciPrefix : Str → Str → Bool
  | [], _ => true
  | _ :: _, [] => false
  | p :: ps, c :: cs => p == Char.toLower c && ciPrefix ps cs

/-- Lazy search (`.*?`) for the literal suffix of a metadata pattern: find the
closest position at which `suf` matches case-insensitively, crossing only
non-newline characters, and return the remainder of the string after it. -/
def scanSuf (suf : Str) : Str → Option Str
  | [] => none
  | c :: rest =>
    if ciPrefix suf (c :: rest) then some ((c :: rest).drop suf.length)
    else if c == '\n' then none
    else scanSuf suf rest

/-- One `re.sub(pattern, '', s, flags=re.IGNORECASE)` pass for a pattern of
shape `lit1.*?lit2` with literal prefix `p :: pre` and literal suffix `suf`:
scan left to right, delete each leftmost-shortest match, and continue after
it.  Fuelled by the string length; every step consumes at least one
character, so the fuel never runs out. -/
def subPatF (p : Char) (pre suf : Str) : Nat → Str → Str
  | 0, s => s
  | _ + 1, [] => []
  | fuel + 1, c :: rest =>
    if ciPrefix (p :: pre) (c :: rest) then
      match scanSuf suf (rest.drop pre.length) with
      | some rem => subPatF p pre suf fuel rem
      | none => c :: subPatF p pre suf fuel rest
    else c :: subPatF p pre suf fuel rest

def subPat (p : Char) (pre suf : Str) (s : Str) : Str := subPatF p pre suf s.length s

/-- Apostrophe character (avoids a literal quote inside string literals). -/
def apos : Char := Char.ofNat 39

/-- metadata_patterns from post_process_response, each as
(first literal char, rest of the literal prefix, literal suffix); all
patterns have the shape `lit1.*?lit2` and are matched case-insensitively. -/
def metadataPatterns : List (Char × Str × Str) :=
  [ ('(', "note:".toList, ")".toList),
    ('[', "note:".toList, "]".toList),
    ('\x7b', "note:".toList, "\x7d".toList),
    ('t', "his response".toList, "based.".toList),
    ('a', "s an ai".toList, ".".toList),
    ('i', " am".toList, "model.".toList),
    ('i', apos :: "m".toList, "model.".toList) ]

/-- Apply the seven metadata-pattern substitutions in declaration order. -/
def removeMetadata (s : Str) : Str :=
  metadataPatterns.foldl (fun acc pat => subPat pat.1 pat.2.1 pat.2.2 acc) s

/-- Emoji allow-list checked by post_process_response. -/
def allow_emoji : List Char := ['🧮', '💯', '🤔', '💪', '✨']

/-- Whether the response already contains one of the allowed emoji. -/
def hasEmoji (s : Str) : Bool := allow_emoji.any (fun e => chrIn e s)

/-- Python `t.rsplit('.', 1)[0]`: everything before the last dot, or `t`
itself when `t` contains no dot. -/
def rsplitDot1 (t : Str) : Str :=
  if chrIn '.' t then ((t.reverse.dropWhile (fun c => !(c == '.'))).drop 1).reverse
  else t

/-- Emoji stage of post_process_response: append `' 🧮'` when no allowed
emoji is present. -/
def emojiStep (r : Str) : Str := if hasEmoji r then r else r ++ " 🧮".toList

/-- Truncation stage of post_process_response: when the text exceeds the
configured maximum, keep the first `maxLen` characters, cut back to the last
sentence boundary among them, and append `'! 💯'`. -/
def truncateStep (maxLen : Nat) (r : Str) : Str :=
  if maxLen < r.length then rsplitDot1 (r.take maxLen) ++ "! 💯".toList else r

/-- post_process_response from `src/main.py`, parametrised by the configured
`MAX_RESPONSE_LENGTH` (default 200): collapse whitespace, strip metadata
remarks, force an emoji, truncate, and strip surrounding whitespace — one
named stage per Python statement, applied in source order. -/
def post_process_response (maxLen : Nat) (response : Str) : Str :=
  stripStr (truncateStep maxLen (emojiStep (removeMetadata (collapseWs response))))

/-- Settings defaults from `src/main.py` (`Settings`). -/
def CACHE_EXPIRATION : Int := 3600

def MAX_RESPONSE_LENGTH : Nat := 200

/-- RateLimiter constants. -/
def WINDOW_SIZE : Int := 3600

def MAX_REQUESTS : Nat := 50

/-- Python-dict lookup on an association list. -/
def lookupD {α : Type} (k : Str) : List (Str × α) → Option α
  | [] => none
  | (k', v) :: rest => if k = k' then some v else lookupD k rest

/-- Python `del d[k]` (and the no-duplicate part of assignment). -/
def eraseD {α : Type} (k : Str) (m : List (Str × α)) : List (Str × α) :=
  m.filter (fun e => decide (e.1 ≠ k))

/-- Python `d[k] = v`. -/
def insertD {α : Type} (k : Str) (v : α) (m : List (Str × α)) : List (Str × α) :=
  (k, v) :: eraseD k m

/-- The rate limiter's `_requests` dictionary: per-IP request timestamps. -/
abbrev LimMap := List (Str × List Int)

/-- RateLimiter.check_rate_limit: prune the window, then either refuse
(`false`) or record the call and admit it (`true`). -/
def RateLimiter.check_rate_limit (lim : LimMap) (ip : Str) (now : Int) : Bool × LimMap :=
  let old := (lookupD ip lim).getD []
  let kept := old.filter (fun t => decide (now - t < WINDOW_SIZE))
  if MAX_REQUESTS ≤ kept.length then (false, insertD ip kept lim)
  else (true, insertD ip (kept ++ [now]) lim)

/-- The cache's `_items` dictionary: question to (response, timestamp). -/
abbrev CacheMap := List (Str × (Str × Int))

/-- LocalCache.get: fresh entries are returned, stale entries are lazily
deleted; returns the value (if any) and the possibly-updated dictionary. -/
def LocalCache.get (exp : Int) (m : CacheMap) (now : Int) (key : Str) :
    Option Str × CacheMap :=
  match lookupD key m with
  | some (v, ts) => if now - ts < exp then (some v, m) else (none, eraseD key m)
  | none => (none, m)

/-- LocalCache.set: store the value stamped with the current time. -/
def LocalCache.set (m : CacheMap) (now : Int) (key value : Str) : CacheMap :=
  insertD key (value, now) m

/-- LocalCache.clear_expired: keep exactly the entries still inside the
expiration window. -/
def LocalCache.clear_expired (exp : Int) (m : CacheMap) (now : Int) : CacheMap :=
  m.filter (fun e => decide (now - e.2.2 < exp))

/-- ERROR_MESSAGES from `src/main.py`. -/
def error_timeout : Str := "Yo deze som duurt te lang fam! Probeer het nog een keer ⏳".toList

def error_service : Str := "Ff chillen, ben zo back! 🔧".toList

def error_non_math : Str := "Yo! Ik help alleen met wiskunde en rekenen! 🧮".toList

def error_invalid : Str := "Die vraag snap ik niet fam, retry? 🤔".toList

def error_rate_limit : Str := "Rustig aan fam! Probeer over een uurtje weer! ⏳".toList

/-- Literal message returned when validate_answer rejects the completion. -/
def unclear_message : Str :=
  "Sorry fam, deze snap ik even niet 100%. Kun je het anders vragen? 🤔".toList

/-- How the single external completion call resolves: `timeout` is
`asyncio.TimeoutError`, `requestError` any `requests.RequestException`
(including a non-2xx status via `raise_for_status`), `malformed` a JSON body
without the expected `choices[0].message.content` structure (raises
`KeyError`/`IndexError`, caught by the generic handler), and `ok content` a
well-formed body whose message text is `content`. -/
inductive SvcResult where
  | timeout
  | requestError
  | malformed
  | ok (content : Str)
deriving DecidableEq

/-- Observable outcome of one `get_ai_response` call: a normal
`(response, cached)` return or a raised `HTTPException(status, detail)`. -/
inductive Outcome where
  | success (response : Str) (cached : Bool)
  | httpError (status : Nat) (detail : Str)
deriving DecidableEq

/-- Process-wide mutable state touched by `get_ai_response`. -/
structure SysState where
  cache : CacheMap
  limiter : LimMap
deriving DecidableEq

/-- Result of one call: outcome, new state, and how many external completion
requests were issued (0 or 1). -/
structure StepResult where
  outcome : Outcome
  state : SysState
  serviceCalls : Nat
deriving DecidableEq

/-- The in-domain tail of get_ai_response (everything after the rate-limit
and math-question guards): cache lookup, external call, answer validation,
shaping, cache store. -/
def respond_in_domain (q : Str) (now : Int) (svc : SvcResult) (st : SysState) : StepResult :=
  match LocalCache.get CACHE_EXPIRATION st.cache now q with
  | (some v, c') => ⟨.success v true, ⟨c', st.limiter⟩, 0⟩
  | (none, c') =>
    match svc with
    | .timeout => ⟨.httpError 504 error_timeout, ⟨c', st.limiter⟩, 1⟩
    | .requestError => ⟨.httpError 503 error_service, ⟨c', st.limiter⟩, 1⟩
    | .malformed => ⟨.httpError 500 error_invalid, ⟨c', st.limiter⟩, 1⟩
    | .ok content =>
      if validate_answer q (stripStr content) (identify_math_context q) then
        ⟨.success (post_process_response MAX_RESPONSE_LENGTH (stripStr content)) false,
          ⟨LocalCache.set c' now q
            (post_process_response MAX_RESPONSE_LENGTH (stripStr content)), st.limiter⟩, 1⟩
      else ⟨.success unclear_message false, ⟨c', st.limiter⟩, 1⟩

/-- get_ai_response from `src/main.py`: rate-limit guard, math-question
guard, then the in-domain tail. -/
def get_ai_response (q ip : Str) (now : Int) (svc : SvcResult) (st : SysState) : StepResult :=
  if !(RateLimiter.check_rate_limit st.limiter ip now).1 then
    ⟨.httpError 429 error_rate_limit,
      ⟨st.cache, (RateLimiter.check_rate_limit st.limiter ip now).2⟩, 0⟩
  else if !validate_math_question q then
    ⟨.success error_non_math false,
      ⟨st.cache, (RateLimiter.check_rate_limit st.limiter ip now).2⟩, 0⟩
  else respond_in_domain q now svc ⟨st.cache, (RateLimiter.check_rate_limit st.limiter ip now).2⟩

/-- Sentence-ending punctuation (for stating the spec's sentence-count cap). -/
def sentence_enders : List Char := ['.', '!', '?']

/-- Number of sentence terminators in a string, the natural measure of "how
many sentences" a shaped reply contains. -/
def sentenceCount (s : Str) : Nat := s.countP (fun c => sentence_enders.contains c)

/-! Helper lemmas about the string primitives. -/

theorem chrIn_of_mem {c : Char} {s : Str} (h : c ∈ s) : chrIn c s = true := by
  rw [chrIn, List.any_eq_true]
  exact ⟨c, h, by simp⟩

theorem mem_of_chrIn {c : Char} {s : Str} (h : chrIn c s = true) : c ∈ s := by
  rw [chrIn, List.any_eq_true] at h
  obtain ⟨a, ha, hb⟩ := h
  rw [beq_iff_eq] at hb
  exact hb ▸ ha

theorem strIn_singleton_of_mem {c : Char} {s : Str} (h : c ∈ s) : strIn [c] s = true := by
  induction s with
  | nil => cases h
  | cons a rest ih =>
    rw [strIn, Bool.or_eq_true]
    rcases List.mem_cons.mp h with h | h
    · exact Or.inl (by simp [patPrefixAt, h])
    · exact Or.inr (ih h)

theorem mem_dropWhile_of_mem {p : Char → Bool} {c : Char} {l : Str}
    (h : c ∈ l) (hc : p c = false) : c ∈ l.dropWhile p := by
  induction l with
  | nil => cases h
  | cons a rest ih =>
    rw [List.dropWhile_cons]
    rcases List.mem_cons.mp h with h | h
    · subst h; simp [hc]
    · by_cases hp : p a = true
      · simpa [hp] using ih h
      · simp [hp, List.mem_cons, Or.inr h]

theorem mem_stripStr_of_mem {c : Char} {s : Str}
    (h : c ∈ s) (hc : isSpaceChar c = false) : c ∈ stripStr s := by
  rw [stripStr, List.mem_reverse]
  exact mem_dropWhile_of_mem (by rw [List.mem_reverse]; exact mem_dropWhile_of_mem h hc) hc

theorem stripStr_sublist (s : Str) : List.Sublist (stripStr s) s := by
  rw [stripStr]
  have h1 : List.Sublist (s.dropWhile isSpaceChar) s := List.dropWhile_sublist _
  have h2 : List.Sublist ((s.dropWhile isSpaceChar).reverse.dropWhile isSpaceChar)
      (s.dropWhile isSpaceChar).reverse := List.dropWhile_sublist _
  have h3 := h2.reverse
  rw [List.reverse_reverse] at h3
  exact h3.trans h1

theorem rsplitDot1_sublist (t : Str) : List.Sublist (rsplitDot1 t) t := by
  rw [rsplitDot1]
  by_cases h : chrIn '.' t = true
  · rw [if_pos h]
    have h1 : List.Sublist (t.reverse.dropWhile (fun c => !(c == '.'))) t.reverse :=
      List.dropWhile_sublist _
    have h2 : List.Sublist ((t.reverse.dropWhile (fun c => !(c == '.'))).drop 1)
        (t.reverse.dropWhile (fun c => !(c == '.'))) := List.drop_sublist _ _
    have h3 := (h2.trans h1).reverse
    rw [List.reverse_reverse] at h3
    exact h3
  · rw [if_neg h]

theorem stripStr_length_le (s : Str) : (stripStr s).length ≤ s.length :=
  (stripStr_sublist s).length_le

theorem rsplitDot1_length_le (t : Str) : (rsplitDot1 t).length ≤ t.length :=
  (rsplitDot1_sublist t).length_le

/-! Helper lemmas about dictionary lookup / insert / erase / filter. -/

theorem lookupD_eraseD {α : Type} (j k : Str) (m : List (Str × α)) :
    lookupD j (eraseD k m) = if j = k then none else lookupD j m := by
  induction m with
  | nil => simp only [eraseD, List.filter_nil, lookupD]; split <;> rfl
  | cons e rest ih =>
    obtain ⟨k', v'⟩ := e
    simp only [eraseD, List.filter_cons] at ih ⊢
    by_cases hk : k' = k
    · rw [if_neg (by simp [hk])]
      rw [ih]
      by_cases hj : j = k
      · rw [if_pos hj, if_pos hj]
      · rw [if_neg hj, if_neg hj, lookupD, if_neg (by rw [hk]; exact hj)]
    · rw [if_pos (by simp [hk])]
      by_cases hj : j = k'
      · have hjk : ¬ j = k := fun hh => hk (hj.symm.trans hh)
        simp only [lookupD, if_pos hj, if_neg hjk]
      · simp only [lookupD, if_neg hj]
        exact ih

theorem lookupD_insertD_self {α : Type} (k : Str) (v : α) (m : List (Str × α)) :
    lookupD k (insertD k v m) = some v := by
  rw [insertD, lookupD, if_pos rfl]

theorem lookupD_insertD_ne {α : Type} {j k : Str} (v : α) (m : List (Str × α))
    (h : j ≠ k) : lookupD j (insertD k v m) = lookupD j m := by
  rw [insertD, lookupD, if_neg h, lookupD_eraseD, if_neg h]

theorem mem_of_lookupD {α : Type} {k : Str} {v : α} {m : List (Str × α)}
    (h : lookupD k m = some v) : (k, v) ∈ m := by
  induction m with
  | nil => simp [lookupD] at h
  | cons e rest ih =>
    obtain ⟨k', v'⟩ := e
    by_cases hj : k = k'
    · rw [lookupD, if_pos hj, Option.some.injEq] at h
      rw [hj, h]
      exact List.mem_cons_self _ _
    · rw [lookupD, if_neg hj] at h
      exact List.mem_cons_of_mem _ (ih h)

theorem lookupD_eq_none_of_not_mem {α : Type} {k : Str} {m : List (Str × α)}
    (h : k ∉ m.map Prod.fst) : lookupD k m = none := by
  induction m with
  | nil => rfl
  | cons e rest ih =>
    obtain ⟨k', v'⟩ := e
    simp only [List.map_cons, List.mem_cons, not_or] at h
    rw [lookupD, if_neg h.1]
    exact ih h.2

theorem lookupD_filter_some {α : Type} {k : Str} {v : α} {m : List (Str × α)}
    (p : Str × α → Bool) (hnd : (m.map Prod.fst).Nodup)
    (h : lookupD k m = some v) :
    lookupD k (m.filter p) = if p (k, v) = true then some v else none := by
  induction m with
  | nil => simp [lookupD] at h
  | cons e rest ih =>
    obtain ⟨k', v'⟩ := e
    simp only [List.map_cons, List.nodup_cons] at hnd
    by_cases hj : k = k'
    · rw [lookupD, if_pos hj, Option.some.injEq] at h
      have hnone : lookupD k (rest.filter p) = none := by
        refine lookupD_eq_none_of_not_mem (fun hmem => hnd.1 ?_)
        have hsub : (rest.filter p).map Prod.fst ⊆ rest.map Prod.fst :=
          ((List.filter_sublist rest).map Prod.fst).subset
        exact hj ▸ hsub hmem
      have hpe : p (k', v') = p (k, v) := by rw [← hj, h]
      by_cases hp : p (k, v) = true
      · rw [List.filter_cons, if_pos (by simpa using hpe.trans hp)]
        simp only [lookupD, if_pos hj, h, if_pos hp]
      · rw [List.filter_cons,
          if_neg (by simp only [hpe]; simpa using hp), if_neg hp]
        exact hnone
    · rw [lookupD, if_neg hj] at h
      have hrec := ih hnd.2 h
      rw [List.filter_cons]
      by_cases hp : p (k', v') = true
      · rw [if_pos (by simpa using hp)]
        simp only [lookupD, if_neg hj]
        exact hrec
      · rw [if_neg (by simpa using hp)]
        exact hrec

theorem lookupD_filter_none {α : Type} {k : Str} {m : List (Str × α)}
    (p : Str × α → Bool) (h : lookupD k m = none) :
    lookupD k (m.filter p) = none := by
  induction m with
  | nil => rfl
  | cons e rest ih =>
    obtain ⟨k', v'⟩ := e
    by_cases hj : k = k'
    · rw [lookupD, if_pos hj] at h
      cases h
    · rw [lookupD, if_neg hj] at h
      rw [List.filter_cons]
      by_cases hp : p (k', v') = true
      · rw [if_pos (by simpa using hp), lookupD, if_neg hj]
        exact ih h
      · rw [if_neg (by simpa using hp)]
        exact ih h

/-! Helper lemmas about the responder model. -/

theorem respond_in_domain_limiter (q : Str) (now : Int) (svc : SvcResult) (st : SysState) :
    (respond_in_domain q now svc st).state.limiter = st.limiter := by
  rw [respond_in_domain]
  rcases hg : LocalCache.get CACHE_EXPIRATION st.cache now q with ⟨o, c'⟩
  cases o with
  | some v => rfl
  | none =>
    cases svc with
    | timeout => rfl
    | requestError => rfl
    | malformed => rfl
    | ok content =>
      by_cases hv : validate_answer q (stripStr content) (identify_math_context q) = true
      · simp only [if_pos hv]
      · simp only [Bool.not_eq_true] at hv
        simp only [hv, Bool.false_eq_true, if_false]

theorem get_ai_response_limiter (q ip : Str) (now : Int) (svc : SvcResult) (st : SysState) :
    (get_ai_response q ip now svc st).state.limiter =
      (RateLimiter.check_rate_limit st.limiter ip now).2 := by
  by_cases hb : (RateLimiter.check_rate_limit st.limiter ip now).1 = true
  · by_cases hm : validate_math_question q = true
    · simp [get_ai_response, hb, hm, respond_in_domain_limiter]
    · simp only [Bool.not_eq_true] at hm
      simp [get_ai_response, hb, hm]
  · simp only [Bool.not_eq_true] at hb
    simp [get_ai_response, hb]

theorem LocalCache.get_snd_cases (exp : Int) (m : CacheMap) (now : Int) (k : Str) :
    (LocalCache.get exp m now k).2 = m ∨ (LocalCache.get exp m now k).2 = eraseD k m := by
  rw [LocalCache.get]
  cases h : lookupD k m with
  | none => exact Or.inl rfl
  | some pair =>
    obtain ⟨v, ts⟩ := pair
    by_cases ht : now - ts < exp
    · exact Or.inl (by simp [ht])
    · exact Or.inr (by simp [ht])

/-! Claim theorems. -/

/-- C1: for every input containing none of the configured topic keywords or
arithmetic symbols, `get_ai_response` (rate limit not exceeded) returns the
canned out-of-domain message with `fromCache = false`, leaves the cache
untouched (the lookup is not even reached), and issues no external completion
request. -/
theorem out_of_domain_short_circuit (q ip : Str) (now : Int) (svc : SvcResult) (st : SysState)
    (hkw : allMathKeywords.all (fun kw => !(strIn kw (lowerStr q))) = true)
    (hrate : (RateLimiter.check_rate_limit st.limiter ip now).1 = true) :
    (get_ai_response q ip now svc st).outcome = .success error_non_math false ∧
    (get_ai_response q ip now svc st).state.cache = st.cache ∧
    (get_ai_response q ip now svc st).serviceCalls = 0 := by
  have hv : validate_math_question q = false := by
    rw [validate_math_question, List.any_eq_false]
    rw [List.all_eq_true] at hkw
    intro kw hm
    simpa using hkw kw hm
  refine ⟨?_, ?_, ?_⟩ <;> simp [get_ai_response, hrate, hv]

/-- Witness for C1: the keyword-free question `"hallo"` short-circuits. -/
theorem out_of_domain_short_circuit_witness :
    (get_ai_response ("hallo".toList) ("ip".toList) 0 .timeout ⟨[], []⟩).outcome =
      .success error_non_math false :=
  (out_of_domain_short_circuit _ _ _ _ _ (by decide) (by decide)).1

/-- C9: for every client IP, once 50 timestamps sit in the trailing 3600 s
window, any further `get_ai_response` call from that IP — whatever the
question — yields HTTP 429 with the rate-limit message, with the cache
untouched and no external call; and every admitted call records its
timestamp before the question is even inspected, so cached and out-of-domain
questions count toward the limit. -/
theorem rate_limit_blocks_all_requests (q ip : Str) (now : Int) (svc : SvcResult) (st : SysState)
    (hfull : MAX_REQUESTS ≤ (((lookupD ip st.limiter).getD []).filter
      (fun t => decide (now - t < WINDOW_SIZE))).length) :
    (get_ai_response q ip now svc st).outcome = .httpError 429 error_rate_limit ∧
    (get_ai_response q ip now svc st).state.cache = st.cache ∧
    (get_ai_response q ip now svc st).serviceCalls = 0 ∧
    (∀ st' : SysState, (RateLimiter.check_rate_limit st'.limiter ip now).1 = true →
      (get_ai_response q ip now svc st').state.limiter =
        insertD ip ((((lookupD ip st'.limiter).getD []).filter
          (fun t => decide (now - t < WINDOW_SIZE))) ++ [now]) st'.limiter) := by
  have hrl : RateLimiter.check_rate_limit st.limiter ip now =
      (false, insertD ip (((lookupD ip st.limiter).getD []).filter
        (fun t => decide (now - t < WINDOW_SIZE))) st.limiter) := by
    simp [RateLimiter.check_rate_limit, hfull]
  refine ⟨?_, ?_, ?_, ?_⟩
  · simp [get_ai_response, hrl]
  · simp [get_ai_response, hrl]
  · simp [get_ai_response, hrl]
  · intro st' hok
    rw [get_ai_response_limiter]
    by_cases hc : MAX_REQUESTS ≤ (((lookupD ip st'.limiter).getD []).filter
        (fun t => decide (now - t < WINDOW_SIZE))).length
    · exfalso
      have hrl' : (RateLimiter.check_rate_limit st'.limiter ip now).1 = false := by
        simp [RateLimiter.check_rate_limit, hc]
      rw [hok] at hrl'
      cases hrl'
    · have hrl' : RateLimiter.check_rate_limit st'.limiter ip now =
          (true, insertD ip ((((lookupD ip st'.limiter).getD []).filter
            (fun t => decide (now - t < WINDOW_SIZE))) ++ [now]) st'.limiter) := by
        simp [RateLimiter.check_rate_limit, hc]
      rw [hrl']

/-- Witness for C9: an IP with 50 fresh timestamps is refused with 429. -/
theorem rate_limit_blocks_all_requests_witness :
    (get_ai_response ("2 plus 2".toList) ("ip".toList) 0 .timeout
        ⟨[], [("ip".toList, List.replicate 50 0)]⟩).outcome =
      .httpError 429 error_rate_limit :=
  (rate_limit_blocks_all_requests _ _ _ _ _ (by decide)).1

/-- C10: any input whose lower-cased form contains `'x'`, `'y'` or `'-'`
(single-character keywords of the `vergelijkingen` and `basis` contexts)
passes `validate_math_question`, so `get_ai_response` never takes the
out-of-domain short circuit for it: under the rate limit the call proceeds
straight to the in-domain tail (cache lookup / external service). -/
theorem single_letter_keywords_force_in_domain (q : Str)
    (hxy : 'x' ∈ lowerStr q ∨ 'y' ∈ lowerStr q ∨ '-' ∈ lowerStr q) :
    validate_math_question q = true ∧
    ∀ (ip : Str) (now : Int) (svc : SvcResult) (st : SysState),
      (RateLimiter.check_rate_limit st.limiter ip now).1 = true →
      get_ai_response q ip now svc st =
        respond_in_domain q now svc
          ⟨st.cache, (RateLimiter.check_rate_limit st.limiter ip now).2⟩ := by
  have hv : validate_math_question q = true := by
    rw [validate_math_question, List.any_eq_true]
    rcases hxy with h | h | h
    · exact ⟨"x".toList, by decide, strIn_singleton_of_mem h⟩
    · exact ⟨"y".toList, by decide, strIn_singleton_of_mem h⟩
    · exact ⟨"-".toList, by decide, strIn_singleton_of_mem h⟩
  refine ⟨hv, fun ip now svc st hrate => ?_⟩
  simp [get_ai_response, hrate, hv]

/-- Witness for C10: `"taxi"` (no math content beyond the letter x) is
classified in-domain and reaches the in-domain tail. -/
theorem single_letter_keywords_force_in_domain_witness :
    validate_math_question ("taxi".toList) = true ∧
    get_ai_response ("taxi".toList) ("ip".toList) 0 .timeout ⟨[], []⟩ =
      respond_in_domain ("taxi".toList) 0 .timeout
        ⟨[], (RateLimiter.check_rate_limit [] ("ip".toList) 0).2⟩ := by
  have h := single_letter_keywords_force_in_domain ("taxi".toList) (Or.inl (by decide))
  exact ⟨h.1, h.2 ("ip".toList) 0 .timeout ⟨[], []⟩ (by decide)⟩

/-- C5: for every key, `LocalCache.get` returns the stored value iff the
entry's age is strictly below the expiration (deleting a stale entry when it
reports absence, and reporting absence for missing keys); and after
`clear_expired` an entry is reachable iff it was present and fresh, so every
entry at or beyond the expiration age is gone and unreachable via `get`.
The no-duplicate-keys hypothesis is the Python-dict invariant. -/
theorem cache_get_expiry_spec (exp now : Int) (m : CacheMap) (k : Str)
    (hnd : (m.map Prod.fst).Nodup) :
    (∀ v ts, lookupD k m = some (v, ts) →
        (now - ts < exp → LocalCache.get exp m now k = (some v, m)) ∧
        (exp ≤ now - ts → LocalCache.get exp m now k = (none, eraseD k m))) ∧
    (lookupD k m = none → LocalCache.get exp m now k = (none, m)) ∧
    (∀ v ts, lookupD k (LocalCache.clear_expired exp m now) = some (v, ts) ↔
        (lookupD k m = some (v, ts) ∧ now - ts < exp)) ∧
    (∀ v ts, lookupD k m = some (v, ts) → exp ≤ now - ts →
        (LocalCache.get exp (LocalCache.clear_expired exp m now) now k).1 = none) := by
  have hclear : ∀ v ts, lookupD k (LocalCache.clear_expired exp m now) = some (v, ts) ↔
      (lookupD k m = some (v, ts) ∧ now - ts < exp) := by
    intro v ts
    constructor
    · intro h
      rcases hm : lookupD k m with _ | pair
      · rw [LocalCache.clear_expired, lookupD_filter_none _ hm] at h
        cases h
      · obtain ⟨v', ts'⟩ := pair
        rw [LocalCache.clear_expired, lookupD_filter_some _ hnd hm] at h
        by_cases hp : (now - ts' < exp)
        · rw [if_pos (by simpa using hp)] at h
          rw [Option.some.injEq, Prod.mk.injEq] at h
          obtain ⟨rfl, rfl⟩ := h
          exact ⟨rfl, hp⟩
        · rw [if_neg (by simpa using hp)] at h
          cases h
    · rintro ⟨hm, hfresh⟩
      rw [LocalCache.clear_expired, lookupD_filter_some _ hnd hm,
        if_pos (by simpa using hfresh)]
  refine ⟨?_, ?_, hclear, ?_⟩
  · intro v ts h
    constructor
    · intro hlt
      simp [LocalCache.get, h, hlt]
    · intro hge
      have hnlt : ¬ (now - ts < exp) := by omega
      simp [LocalCache.get, h, hnlt]
  · intro h
    simp [LocalCache.get, h]
  · intro v ts hm hge
    rcases hc : lookupD k (LocalCache.clear_expired exp m now) with _ | pair
    · simp [LocalCache.get, hc]
    · obtain ⟨v', ts'⟩ := pair
      exfalso
      obtain ⟨hm', hfresh⟩ := (hclear v' ts').mp hc
      have h3 := hm.symm.trans hm'
      rw [Option.some.injEq, Prod.mk.injEq] at h3
      omega

/-- Witness for C5: a fresh entry is returned unchanged by `get`. -/
theorem cache_get_expiry_spec_witness :
    LocalCache.get 3600 [("k".toList, ("v".toList, 0))] 10 ("k".toList) =
      (some ("v".toList), [("k".toList, ("v".toList, 0))]) :=
  ((cache_get_expiry_spec 3600 10 _ _ (by decide)).1 ("v".toList) 0
    (by decide)).1 (by decide)

set_option maxRecDepth 16384 in
/-- C2 counterexample: on 201 letters `a` the shaper truncates to the first
200 characters (no sentence boundary inside) and then appends the
3-character marker `'! 💯'`, so the output has 203 > 200 characters; the
claimed bound `length ≤ MAX_RESPONSE_LENGTH` is false. -/
theorem shaper_length_cap_violated :
    ¬ ((post_process_response MAX_RESPONSE_LENGTH (List.replicate 201 'a')).length ≤
      MAX_RESPONSE_LENGTH) := by decide

theorem truncateStep_length_le (maxLen : Nat) (r : Str) :
    (truncateStep maxLen r).length ≤ maxLen + 3 := by
  rw [truncateStep]
  by_cases h : maxLen < r.length
  · rw [if_pos h, List.length_append]
    have h1 := rsplitDot1_length_le (r.take maxLen)
    have h2 := List.length_take_le maxLen r
    have h3 : ("! 💯".toList).length = 3 := by decide
    omega
  · rw [if_neg h]
    omega

/-- C2 amended: the shaper's output length is at most the configured maximum
plus 3 — the truncation path keeps at most `maxLen` characters and appends
the 3-character closing marker `'! 💯'` after cutting, so the configured
maximum alone is not an upper bound. -/
theorem shaper_length_bounded (maxLen : Nat) (raw : Str) :
    (post_process_response maxLen raw).length ≤ maxLen + 3 := by
  rw [post_process_response]
  exact le_trans (stripStr_length_le _) (truncateStep_length_le _ _)

/-- C6 counterexample: a four-sentence reply passes through the shaper
unchanged, so the output contains 4 > 2 sentence terminators — no
sentence-count cap is applied anywhere in post_process_response. -/
theorem shaper_sentence_cap_violated :
    ¬ (sentenceCount (post_process_response MAX_RESPONSE_LENGTH
      ("Een. Twee. Drie. Vier. 🧮".toList)) ≤ 2) := by decide

/-- C6 amended: the shaper never splits into sentences nor caps their
number; the output carries at most one sentence terminator more than the
whitespace-collapsed, metadata-stripped input (the extra one being the `'!'`
of the truncation marker), rather than at most N = 2 sentences. -/
theorem shaper_sentence_count_bound (maxLen : Nat) (raw : Str) :
    sentenceCount (post_process_response maxLen raw) ≤
      sentenceCount (removeMetadata (collapseWs raw)) + 1 := by
  have p := fun c => sentence_enders.contains c
  rw [post_process_response]
  simp only [sentenceCount]
  have hstep : (emojiStep (removeMetadata (collapseWs raw))).countP
      (fun c => sentence_enders.contains c) =
      (removeMetadata (collapseWs raw)).countP (fun c => sentence_enders.contains c) := by
    rw [emojiStep]
    by_cases h : hasEmoji (removeMetadata (collapseWs raw)) = true
    · rw [if_pos h]
    · rw [if_neg h, List.countP_append]
      have hz : (" 🧮".toList).countP (fun c => sentence_enders.contains c) = 0 := by decide
      omega
  have hstrip := (stripStr_sublist (truncateStep maxLen
    (emojiStep (removeMetadata (collapseWs raw))))).countP_le
    (fun c => sentence_enders.contains c)
  have htrunc : (truncateStep maxLen (emojiStep (removeMetadata (collapseWs raw)))).countP
      (fun c => sentence_enders.contains c) ≤
      (emojiStep (removeMetadata (collapseWs raw))).countP
        (fun c => sentence_enders.contains c) + 1 := by
    rw [truncateStep]
    by_cases h : maxLen < (emojiStep (removeMetadata (collapseWs raw))).length
    · rw [if_pos h, List.countP_append]
      have h1 : ("! 💯".toList).countP (fun c => sentence_enders.contains c) = 1 := by decide
      have h2 := ((rsplitDot1_sublist ((emojiStep (removeMetadata (collapseWs raw))).take
        maxLen)).trans (List.take_sublist _ _)).countP_le
        (fun c => sentence_enders.contains c)
      omega
    · rw [if_neg h]
      omega
  omega

theorem hasEmoji_of_mem {e : Char} {s : Str} (he : e ∈ allow_emoji) (hm : e ∈ s) :
    hasEmoji s = true := by
  rw [hasEmoji, List.any_eq_true]
  exact ⟨e, he, chrIn_of_mem hm⟩

theorem exists_emoji_of_hasEmoji {s : Str} (h : hasEmoji s = true) :
    ∃ e, e ∈ allow_emoji ∧ e ∈ s := by
  rw [hasEmoji, List.any_eq_true] at h
  obtain ⟨e, he, hc⟩ := h
  exact ⟨e, he, mem_of_chrIn hc⟩

theorem emojiStep_hasEmoji (r : Str) : hasEmoji (emojiStep r) = true := by
  rw [emojiStep]
  by_cases h : hasEmoji r = true
  · rw [if_pos h]
    exact h
  · rw [if_neg h]
    exact hasEmoji_of_mem (e := '🧮') (by decide)
      (List.mem_append.mpr (Or.inr (by decide)))

/-- C7: the shaper's output always contains at least one emoji from the
allow-list — one is appended when missing, and on the truncation path the
appended marker `'! 💯'` itself supplies one. -/
theorem shaper_output_has_emoji (maxLen : Nat) (raw : Str) :
    hasEmoji (post_process_response maxLen raw) = true := by
  rw [post_process_response, truncateStep]
  by_cases h : maxLen < (emojiStep (removeMetadata (collapseWs raw))).length
  · rw [if_pos h]
    refine hasEmoji_of_mem (e := '💯') (by decide) ?_
    refine mem_stripStr_of_mem ?_ (by decide)
    exact List.mem_append.mpr (Or.inr (by decide))
  · rw [if_neg h]
    obtain ⟨e, he, hm⟩ :=
      exists_emoji_of_hasEmoji (emojiStep_hasEmoji (removeMetadata (collapseWs raw)))
    have hnsp : isSpaceChar e = false := by
      have hall : ∀ x ∈ allow_emoji, isSpaceChar x = false := by decide
      exact hall e he
    exact hasEmoji_of_mem he (mem_stripStr_of_mem hm hnsp)

theorem LocalCache.get_hit_eq {exp now : Int} {m : CacheMap} {k v : Str} {c' : CacheMap}
    (h : LocalCache.get exp m now k = (some v, c')) : c' = m := by
  rw [LocalCache.get] at h
  rcases hl : lookupD k m with _ | pair
  · rw [hl] at h
    injection h with h1 h2
    cases h1
  · obtain ⟨v0, ts0⟩ := pair
    rw [hl] at h
    by_cases ht : now - ts0 < exp
    · simp only [ht, if_true] at h
      injection h with h1 h2
      exact h2.symm
    · simp only [ht, if_false] at h
      injection h with h1 h2
      cases h1

theorem respond_in_domain_cache_cases (q : Str) (now : Int) (svc : SvcResult) (st : SysState) :
    (respond_in_domain q now svc st).state.cache = st.cache ∨
    (respond_in_domain q now svc st).state.cache = eraseD q st.cache ∨
    (∃ content, svc = SvcResult.ok content ∧
      validate_answer q (stripStr content) (identify_math_context q) = true ∧
      (respond_in_domain q now svc st).state.cache =
        insertD q (post_process_response MAX_RESPONSE_LENGTH (stripStr content), now)
          (LocalCache.get CACHE_EXPIRATION st.cache now q).2 ∧
      (respond_in_domain q now svc st).outcome =
        .success (post_process_response MAX_RESPONSE_LENGTH (stripStr content)) false) := by
  rw [respond_in_domain]
  rcases hg : LocalCache.get CACHE_EXPIRATION st.cache now q with ⟨o, c'⟩
  cases o with
  | some v0 =>
    exact Or.inl (LocalCache.get_hit_eq hg)
  | none =>
    have hc' : c' = st.cache ∨ c' = eraseD q st.cache := by
      have hs := LocalCache.get_snd_cases CACHE_EXPIRATION st.cache now q
      rw [hg] at hs
      simpa using hs
    cases svc with
    | timeout => rcases hc' with h | h
                 · exact Or.inl h
                 · exact Or.inr (Or.inl h)
    | requestError => rcases hc' with h | h
                      · exact Or.inl h
                      · exact Or.inr (Or.inl h)
    | malformed => rcases hc' with h | h
                   · exact Or.inl h
                   · exact Or.inr (Or.inl h)
    | ok content =>
      by_cases hv : validate_answer q (stripStr content) (identify_math_context q) = true
      · refine Or.inr (Or.inr ⟨content, rfl, hv, ?_, ?_⟩)
        · simp only [if_pos hv]
          rfl
        · simp only [if_pos hv]
      · simp only [Bool.not_eq_true] at hv
        simp only [hv, Bool.false_eq_true, if_false]
        rcases hc' with h | h
        · exact Or.inl h
        · exact Or.inr (Or.inl h)

/-- C3 counterexample: with an expired cache entry for the asked question,
even a timed-out call (a failure path) changes the cache — the lookup
lazily deletes the stale entry — so "the cache is left unchanged on every
failure path" is false as stated. -/
theorem failure_path_cache_changed :
    (get_ai_response ("1 plus 1".toList) ("ip".toList) 5000 .timeout
        ⟨[("1 plus 1".toList, ("oud".toList, 0))], []⟩).state.cache ≠
      [("1 plus 1".toList, ("oud".toList, 0))] := by decide

/-- C3 amended: no failure path (timeout, transport/HTTP error, malformed
response, or a completion rejected by answer validation) ever adds or
updates a cache entry — every entry of the cache after the call was already
present unchanged, except for the single entry written for the asked
question, stamped `now`, holding the shaped text of a completion that
passed validation (the only possible removal being the lazy expiry delete
performed by the lookup itself). -/
theorem cache_entries_only_from_validated_completions
    (q ip : Str) (now : Int) (svc : SvcResult) (st : SysState) (k v : Str) (ts : Int)
    (hk : lookupD k (get_ai_response q ip now svc st).state.cache = some (v, ts)) :
    lookupD k st.cache = some (v, ts) ∨
    (k = q ∧ ts = now ∧ ∃ content, svc = SvcResult.ok content ∧
      validate_answer q (stripStr content) (identify_math_context q) = true ∧
      v = post_process_response MAX_RESPONSE_LENGTH (stripStr content) ∧
      (get_ai_response q ip now svc st).outcome =
        .success (post_process_response MAX_RESPONSE_LENGTH (stripStr content)) false) := by
  have hsub : ∀ (c' : CacheMap), (c' = st.cache ∨ c' = eraseD q st.cache) →
      lookupD k c' = some (v, ts) → lookupD k st.cache = some (v, ts) := by
    rintro c' (rfl | rfl) h
    · exact h
    · rw [lookupD_eraseD] at h
      by_cases hq : k = q
      · rw [if_pos hq] at h
        cases h
      · rw [if_neg hq] at h
        exact h
  by_cases hb : (RateLimiter.check_rate_limit st.limiter ip now).1 = true
  · by_cases hm : validate_math_question q = true
    · have hred : get_ai_response q ip now svc st =
          respond_in_domain q now svc
            ⟨st.cache, (RateLimiter.check_rate_limit st.limiter ip now).2⟩ := by
        simp [get_ai_response, hb, hm]
      rw [hred] at hk ⊢
      rcases respond_in_domain_cache_cases q now svc
          ⟨st.cache, (RateLimiter.check_rate_limit st.limiter ip now).2⟩ with
        hc | hc | ⟨content, hsvc, hval, hc, hout⟩
      · rw [hc] at hk
        exact Or.inl hk
      · rw [hc] at hk
        exact Or.inl (hsub _ (Or.inr rfl) hk)
      · rw [hc] at hk
        by_cases hq : k = q
        · subst hq
          rw [lookupD_insertD_self, Option.some.injEq, Prod.mk.injEq] at hk
          exact Or.inr ⟨rfl, hk.2.symm, content, hsvc, hval, hk.1.symm, hout⟩
        · rw [lookupD_insertD_ne _ _ hq] at hk
          have hcases := LocalCache.get_snd_cases CACHE_EXPIRATION st.cache now q
          exact Or.inl (hsub _ hcases hk)
    · simp only [Bool.not_eq_true] at hm
      rw [show (get_ai_response q ip now svc st).state.cache = st.cache by
        simp [get_ai_response, hb, hm]] at hk
      exact Or.inl hk
  · simp only [Bool.not_eq_true] at hb
    rw [show (get_ai_response q ip now svc st).state.cache = st.cache by
      simp [get_ai_response, hb]] at hk
    exact Or.inl hk

set_option maxRecDepth 16384 in
set_option maxHeartbeats 2000000 in
/-- Witness for C3: the validated completion `"Yo! 2 💯"` for `"1 plus 1"`
is written to the cache, and the disjunction holds at that entry. -/
theorem cache_entries_only_from_validated_completions_witness :
    lookupD ("1 plus 1".toList) (⟨[], []⟩ : SysState).cache =
      some (post_process_response MAX_RESPONSE_LENGTH (stripStr ("Yo! 2 💯".toList)), 0) ∨
    ("1 plus 1".toList = "1 plus 1".toList ∧ (0 : Int) = (0 : Int) ∧
      ∃ content, SvcResult.ok ("Yo! 2 💯".toList) = SvcResult.ok content ∧
        validate_answer ("1 plus 1".toList) (stripStr content)
          (identify_math_context ("1 plus 1".toList)) = true ∧
        post_process_response MAX_RESPONSE_LENGTH (stripStr ("Yo! 2 💯".toList)) =
          post_process_response MAX_RESPONSE_LENGTH (stripStr content) ∧
        (get_ai_response ("1 plus 1".toList) ("ip".toList) 0
            (.ok "Yo! 2 💯".toList) ⟨[], []⟩).outcome =
          .success (post_process_response MAX_RESPONSE_LENGTH
            (stripStr content)) false) :=
  cache_entries_only_from_validated_completions ("1 plus 1".toList) ("ip".toList) 0
    (.ok "Yo! 2 💯".toList) ⟨[], []⟩ ("1 plus 1".toList)
    (post_process_response MAX_RESPONSE_LENGTH (stripStr ("Yo! 2 💯".toList))) 0 (by decide)

/-- C4: after a first call that reaches the service, gets completion
`content` and passes validation (returning the shaped text with
`fromCache = false`), a second call with the identical question within the
expiration window and under the rate limit returns the same text with
`fromCache = true` and performs no external call, whatever the service
would answer the second time. -/
theorem second_identical_question_served_from_cache
    (q ip content : Str) (t1 t2 : Int) (svc2 : SvcResult) (st : SysState)
    (hmath : validate_math_question q = true)
    (hr1 : (RateLimiter.check_rate_limit st.limiter ip t1).1 = true)
    (hmiss : (LocalCache.get CACHE_EXPIRATION st.cache t1 q).1 = none)
    (hval : validate_answer q (stripStr content) (identify_math_context q) = true)
    (hr2 : (RateLimiter.check_rate_limit
      (get_ai_response q ip t1 (.ok content) st).state.limiter ip t2).1 = true)
    (hfresh : t2 - t1 < CACHE_EXPIRATION) :
    (get_ai_response q ip t1 (.ok content) st).outcome =
      .success (post_process_response MAX_RESPONSE_LENGTH (stripStr content)) false ∧
    (get_ai_response q ip t2 svc2 (get_ai_response q ip t1 (.ok content) st).state).outcome =
      .success (post_process_response MAX_RESPONSE_LENGTH (stripStr content)) true ∧
    (get_ai_response q ip t2 svc2
      (get_ai_response q ip t1 (.ok content) st).state).serviceCalls = 0 := by
  rcases hg : LocalCache.get CACHE_EXPIRATION st.cache t1 q with ⟨o, c'⟩
  have ho : o = none := by
    rw [hg] at hmiss
    exact hmiss
  subst ho
  have h1 : get_ai_response q ip t1 (.ok content) st =
      ⟨.success (post_process_response MAX_RESPONSE_LENGTH (stripStr content)) false,
        ⟨LocalCache.set c' t1 q (post_process_response MAX_RESPONSE_LENGTH (stripStr content)),
          (RateLimiter.check_rate_limit st.limiter ip t1).2⟩, 1⟩ := by
    simp [get_ai_response, hr1, hmath, respond_in_domain, hg, hval]
  rw [h1] at hr2 ⊢
  dsimp only at hr2 ⊢
  have hg2 : LocalCache.get CACHE_EXPIRATION
      (LocalCache.set c' t1 q (post_process_response MAX_RESPONSE_LENGTH (stripStr content)))
      t2 q =
      (some (post_process_response MAX_RESPONSE_LENGTH (stripStr content)),
        LocalCache.set c' t1 q (post_process_response MAX_RESPONSE_LENGTH (stripStr content))) := by
    rw [LocalCache.get, LocalCache.set, lookupD_insertD_self]
    simp [hfresh]
  refine ⟨rfl, ?_, ?_⟩ <;>
    simp [get_ai_response, hr2, hmath, respond_in_domain, hg2]

set_option maxRecDepth 16384 in
/-- Witness for C4: `"1 plus 1"` answered `"Yo! 2 💯"` at time 0 is served
from cache at time 10 with no second external call. -/
theorem second_identical_question_served_from_cache_witness :
    (get_ai_response ("1 plus 1".toList) ("ip".toList) 10 .timeout
        (get_ai_response ("1 plus 1".toList) ("ip".toList) 0
          (.ok "Yo! 2 💯".toList) ⟨[], []⟩).state).outcome =
      .success (post_process_response MAX_RESPONSE_LENGTH (stripStr ("Yo! 2 💯".toList))) true :=
  (second_identical_question_served_from_cache ("1 plus 1".toList) ("ip".toList)
    ("Yo! 2 💯".toList) 0 10 .timeout ⟨[], []⟩ (by decide) (by decide) (by decide)
    (by decide) (by decide) (by decide)).2.1

/-- C8 counterexample: the code never raises HTTP 422.  A completion judged
useless by answer validation (`"Dat weet ik niet fam"` for `"7 keer 8"`,
digits expected but absent) yields a plain 200-path return of the canned
"unclear" message, and a structurally malformed response yields HTTP 500 —
in neither case an `InvalidCompletion`-style 422. -/
theorem rejected_completion_no_422 :
    (get_ai_response ("7 keer 8".toList) ("ip".toList) 0
        (.ok "Dat weet ik niet fam".toList) ⟨[], []⟩).outcome =
      .success unclear_message false ∧
    (get_ai_response ("7 keer 8".toList) ("ip".toList) 0 .malformed ⟨[], []⟩).outcome =
      .httpError 500 error_invalid :=
  ⟨by decide, by decide⟩

/-- C8 amended: a structurally malformed service response is surfaced as
HTTP 500 with the generic "invalid" message (via the catch-all handler),
while a completion rejected by answer validation raises nothing: the
responder returns the canned "unclear" message with `fromCache = false`
after having called the service once, caching nothing; no 422 status
exists in the code (and echoed questions are not detected at all). -/
theorem completion_failure_status_codes (q ip : Str) (now : Int) (st : SysState)
    (hr : (RateLimiter.check_rate_limit st.limiter ip now).1 = true)
    (hm : validate_math_question q = true)
    (hmiss : (LocalCache.get CACHE_EXPIRATION st.cache now q).1 = none) :
    (get_ai_response q ip now .malformed st).outcome = .httpError 500 error_invalid ∧
    (∀ content, validate_answer q (stripStr content) (identify_math_context q) = false →
      (get_ai_response q ip now (.ok content) st).outcome = .success unclear_message false ∧
      (get_ai_response q ip now (.ok content) st).serviceCalls = 1 ∧
      (get_ai_response q ip now (.ok content) st).state.cache =
        (LocalCache.get CACHE_EXPIRATION st.cache now q).2) := by
  rcases hg : LocalCache.get CACHE_EXPIRATION st.cache now q with ⟨o, c'⟩
  have ho : o = none := by
    rw [hg] at hmiss
    exact hmiss
  subst ho
  constructor
  · simp [get_ai_response, hr, hm, respond_in_domain, hg]
  · intro content hv
    refine ⟨?_, ?_, ?_⟩ <;>
      simp [get_ai_response, hr, hm, respond_in_domain, hg, hv]

/-- Witness for C8: the malformed-response branch of the amended theorem at
a concrete call. -/
theorem completion_failure_status_codes_witness :
    (get_ai_response ("7 keer 8".toList) ("ip".toList) 0 .malformed ⟨[], []⟩).outcome =
      .httpError 500 error_invalid :=
  (completion_failure_status_codes ("7 keer 8".toList) ("ip".toList) 0 ⟨[], []⟩
    (by decide) (by decide) (by decide)).1

end Wiskoro
